import Mathlib

/-!
Verification development for the kosuke-template repository.

The repository consists of an interactive setup wizard (src/cli/main.py)
built around a resumable step sequencer with persisted progress, and two
small engine example modules (src/engine/src/arithmetic_example.py and
src/engine/src/currency_converter.py).

This file gives a shallow embedding of the parts of the code that the
frozen claims are about:

* the persisted progress store (ProgressManager.save_progress and
  ProgressManager.load_progress together with SetupProgress.to_dict,
  SetupProgress.from_dict and the dataclass post-init defaults);
* the resume decision at the top of InteractiveSetup.start;
* the polar billing step (InteractiveSetup.step_polar_billing), including
  its mid-step save, and the sequencer advance in InteractiveSetup.start;
* the project-name normalization in InteractiveSetup.get_project_name;
* the fork URL check in InteractiveSetup.validate_github_url, with the
  Python regex dollar anchor semantics (end of string, or the position
  just before a final newline character);
* convert_currency and calculate from the engine examples.

Modelling conventions: Python strings are lists of characters; Python
dicts are association lists with unique keys that preserve insertion
order; JSON documents are an inductive type and the serialize/parse pair
json.dump and json.load is treated as the identity on such documents
(which it is for documents without float values); Python floats are
modelled as exact rational numbers; functions that can raise return
Except or Option values.
-/

/-! ### A model of JSON documents (the persisted progress file) -/

/-- JSON values, as produced by json.load.  Objects are association
lists with string keys; json.load keeps one binding per key. -/
inductive Json : Type where
  | null : Json
  | bool : Bool → Json
  | num : ℚ → Json
  | str : String → Json
  | arr : List Json → Json
  | obj : List (String × Json) → Json

/-- Tests whether a JSON value is null; this is the model of the Python
check `value is None` done by the dataclass post-init hook. -/
def Json.isNull : Json → Bool
  | Json.null => true
  | _ => false

/-- Tests whether a JSON value is an integer (a number with denominator
one), the model of a Python int. -/
def Json.isInt : Json → Bool
  | Json.num q => q.den == 1
  | _ => false

/-- Tests whether a JSON value is a string. -/
def Json.isStr : Json → Bool
  | Json.str _ => true
  | _ => false

/-- Tests whether a JSON value is an array of strings. -/
def Json.isStrArr : Json → Bool
  | Json.arr xs => xs.all Json.isStr
  | _ => false

/-- Tests whether a JSON value is an object whose values are strings
(the declared type of the api_keys field, Dict[str, str]). -/
def Json.isStrObj : Json → Bool
  | Json.obj kvs => kvs.all (fun kv => kv.2.isStr)
  | _ => false

/-- Tests whether a JSON value is an object. -/
def Json.isObj : Json → Bool
  | Json.obj _ => true
  | _ => false

/-- Tests whether a JSON value is an object whose values are objects
(the declared type of the service_configs field, Dict[str, Dict]). -/
def Json.isObjObj : Json → Bool
  | Json.obj kvs => kvs.all (fun kv => kv.2.isObj)
  | _ => false

/-! ### SetupProgress and the progress store

SetupProgress is a plain Python dataclass; the constructor performs no
type checking, so a loaded record carries whatever JSON values the file
supplied.  The five fields therefore have type Json in the model. -/

/-- The in-memory shape of a SetupProgress object built by
SetupProgress.from_dict: all five dataclass fields are present, holding
arbitrary JSON values because the dataclass constructor checks nothing. -/
structure SetupProgressJ : Type where
  current_step : Json
  project_name : Json
  completed_services : Json
  api_keys : Json
  service_configs : Json

/-- Field names of the SetupProgress dataclass, in declaration order.
A keyword argument outside this list makes the constructor raise
TypeError. -/
def setupProgressFields : List String :=
  ["current_step", "project_name", "completed_services", "api_keys", "service_configs"]

/-- Model of SetupProgress.__post_init__: a collection field equal to
None is replaced by an empty collection. -/
def postInit (p : SetupProgressJ) : SetupProgressJ :=
  { p with
    completed_services := if p.completed_services.isNull then Json.arr [] else p.completed_services
    api_keys := if p.api_keys.isNull then Json.obj [] else p.api_keys
    service_configs := if p.service_configs.isNull then Json.obj [] else p.service_configs }

/-- Model of SetupProgress.to_dict (dataclasses.asdict): the five fields
as a JSON object in declaration order. -/
def SetupProgressJ.to_dict (p : SetupProgressJ) : Json :=
  Json.obj
    [("current_step", p.current_step),
     ("project_name", p.project_name),
     ("completed_services", p.completed_services),
     ("api_keys", p.api_keys),
     ("service_configs", p.service_configs)]

/-- Model of SetupProgress.from_dict, which is cls(**data): it fails
(raises TypeError, yielding none here) unless data is an object all of
whose keys are dataclass field names; absent fields take the dataclass
defaults (1, the empty string, None, None, None) and the post-init hook
then replaces None collections by empty ones.  No type check happens. -/
def SetupProgress.from_dict (j : Json) : Option SetupProgressJ :=
  match j with
  | Json.obj kvs =>
      if kvs.all (fun kv => setupProgressFields.contains kv.1) then
        some (postInit
          { current_step := (kvs.lookup "current_step").getD (Json.num 1)
            project_name := (kvs.lookup "project_name").getD (Json.str "")
            completed_services := (kvs.lookup "completed_services").getD Json.null
            api_keys := (kvs.lookup "api_keys").getD Json.null
            service_configs := (kvs.lookup "service_configs").getD Json.null })
      else none
  | _ => none

/-- States of the persisted progress file as seen by the store: the file
may be absent, unreadable (an I/O error while opening or reading),
malformed (json.load raises), or hold a parsed JSON document. -/
inductive FileState : Type where
  | absent : FileState
  | unreadable : FileState
  | malformed : FileState
  | json : Json → FileState

/-- Model of ProgressManager.load_progress: absence of the file yields
None via the os.path.exists guard, and every exception (I/O error, JSON
decode error, TypeError from the constructor) is caught and also yields
None; otherwise the parsed document is passed to SetupProgress.from_dict. -/
def load_progress : FileState → Option SetupProgressJ
  | FileState.absent => none
  | FileState.unreadable => none
  | FileState.malformed => none
  | FileState.json j => SetupProgress.from_dict j

/-- Model of ProgressManager.save_progress: the file afterwards holds the
serialized to_dict document (json.dump followed by json.load is the
identity on these documents). -/
def save_progress (p : SetupProgressJ) : FileState :=
  FileState.json p.to_dict

/-- Structural validity of a loaded SetupProgress in the sense of the
declared dataclass field types: current_step an int, project_name a
string, completed_services a list of strings, api_keys a string-to-string
mapping, service_configs a string-to-object mapping. -/
def structValid (p : SetupProgressJ) : Bool :=
  p.current_step.isInt && p.project_name.isStr && p.completed_services.isStrArr
    && p.api_keys.isStrObj && p.service_configs.isObjObj

/-- Fallback SetupProgress value used only to state round-trip facts
about Option results; mirrors the dataclass defaults after post-init. -/
def defaultSetupProgressJ : SetupProgressJ :=
  { current_step := Json.num 1
    project_name := Json.str ""
    completed_services := Json.arr []
    api_keys := Json.obj []
    service_configs := Json.obj [] }

/-! ### Typed progress state and the sequencer fragments

For the claims about the resume decision and the polar billing step the
progress values in play are well typed, so a typed record mirroring the
dataclass is used.  service_configs values are arbitrary JSON objects. -/

/-- Typed view of SetupProgress used by the sequencer model. -/
structure SetupProgressT : Type where
  current_step : ℤ
  project_name : String
  completed_services : List String
  api_keys : List (String × String)
  service_configs : List (String × Json)

/-- Fresh progress state, the model of the SetupProgress() constructor
call with all defaults. -/
def freshProgress : SetupProgressT :=
  { current_step := 1
    project_name := ""
    completed_services := []
    api_keys := []
    service_configs := [] }

/-- Python dict assignment d[k] = v on an insertion-ordered dict:
replace the binding in place when the key exists, else append it. -/
def dictSet {α : Type} (m : List (String × α)) (k : String) (v : α) :
    List (String × α) :=
  if m.any (fun kv => kv.1 == k) then
    m.map (fun kv => if kv.1 == k then (k, v) else kv)
  else m ++ [(k, v)]

/-- Model of the resume decision at the top of InteractiveSetup.start
(lines 155-169).  The argument loaded is the result of load_progress in
the constructor (self.progress = load_progress() or SetupProgress()),
and resumeAnswer is the answer the operator would give to ask_resume.
The result is the progress state after the decision, whether the store
was cleared, and whether ask_resume was invoked at all. -/
def startResume (loaded : Option SetupProgressT) (resumeAnswer : Bool) :
    SetupProgressT × Bool × Bool :=
  let p := loaded.getD freshProgress
  if 1 < p.current_step then
    if resumeAnswer then (p, false, true) else (freshProgress, true, true)
  else (freshProgress, true, false)

/-- Operator inputs consumed by step_polar_billing. -/
structure PolarInputs : Type where
  sandbox : Bool
  org_slug : String
  pro_product_id : String
  business_product_id : String
  polar_token : String
  webhook_secret : String

/-- Dashboard URL chosen by the environment prompt of
step_polar_billing. -/
def polarDashUrl (sandbox : Bool) : String :=
  if sandbox then "https://sandbox.polar.sh/dashboard" else "https://polar.sh/dashboard"

/-- Environment string chosen by the environment prompt of
step_polar_billing. -/
def polarEnvName (sandbox : Bool) : String :=
  if sandbox then "sandbox" else "production"

/-- The ServiceConfig record built by step_polar_billing, as the JSON
document produced by ServiceConfig.to_dict (dataclasses.asdict). -/
def polarConfigJson (dash org pro biz env projectName : String) : Json :=
  Json.obj
    [("name", Json.str "Polar Billing"),
     ("url", Json.str (dash ++ "/" ++ org)),
     ("credentials", Json.obj
       [("organization_slug", Json.str org),
        ("pro_product_id", Json.str pro),
        ("business_product_id", Json.str biz),
        ("environment", Json.str env),
        ("dashboard_url", Json.str (dash ++ "/" ++ org))]),
     ("webhook_urls", Json.arr
       [Json.str ("https://" ++ projectName ++ ".vercel.app/api/billing/webhook")])]

/-- The dict literal stored by step_2_vercel_manual into
service_configs (lines 356-362): it has the keys name, url and
credentials, and no webhook_urls key. -/
def vercelConfigJson (projectUrl : String) : Json :=
  Json.obj
    [("name", Json.str "Vercel Project"),
     ("url", Json.str projectUrl),
     ("credentials", Json.obj [("project_url", Json.str projectUrl)])]

/-- Prefix of step_polar_billing up to and including the mid-step call
to ProgressManager.save_progress (lines 470-485): the polar record is
stored and the polar identifier is appended to completed_services, and
this state is what the save persists.  The remaining prompts of the step
run after this save. -/
def polarMidSave (p : SetupProgressT) (i : PolarInputs) : SetupProgressT :=
  { p with
    service_configs := dictSet p.service_configs "polar"
      (polarConfigJson (polarDashUrl i.sandbox) i.org_slug i.pro_product_id
        i.business_product_id (polarEnvName i.sandbox) p.project_name)
    completed_services := p.completed_services ++ ["polar"] }

/-- Remainder of step_polar_billing after the mid-step save: the API
token and webhook secret prompts store two api_keys entries. -/
def polarFinish (p : SetupProgressT) (i : PolarInputs) : SetupProgressT :=
  { p with
    api_keys := dictSet (dictSet p.api_keys "polar_access_token" i.polar_token)
      "polar_webhook_secret" i.webhook_secret }

/-- One complete execution of step_polar_billing. -/
def stepPolar (p : SetupProgressT) (i : PolarInputs) : SetupProgressT :=
  polarFinish (polarMidSave p i) i

/-- The sequencer advance after a step body returns
(self.progress.current_step += 1 at line 195). -/
def seqAdvance (p : SetupProgressT) : SetupProgressT :=
  { p with current_step := p.current_step + 1 }

/-- A concrete progress state as persisted after steps 1 to 3 have
completed, about to run step 4 (polar billing). -/
def progressAtStep4 : SetupProgressT :=
  { current_step := 4
    project_name := "my-app"
    completed_services := ["github", "vercel", "neon"]
    api_keys := [("github_repo_url", "https://github.com/alice/my-app")]
    service_configs := [("vercel", vercelConfigJson "https://my-app.vercel.app")] }

/-- Concrete operator inputs for one run of the polar step. -/
def polarInputsA : PolarInputs :=
  { sandbox := true
    org_slug := "my-app-org"
    pro_product_id := "prod_pro_1"
    business_product_id := "prod_biz_1"
    polar_token := "polar_oat_abc"
    webhook_secret := "polar_whs_abc" }

/-- A persisted progress state whose current_step is still 1 although a
project name was already chosen and saved. -/
def progressStep1 : SetupProgressT :=
  { current_step := 1
    project_name := "my-app"
    completed_services := ["github"]
    api_keys := []
    service_configs := [] }

/-- The SetupProgressJ value that load_progress builds from the file
content with a string-typed current_step field. -/
def illTypedProgressJ : SetupProgressJ :=
  { current_step := Json.str "5"
    project_name := Json.str ""
    completed_services := Json.arr []
    api_keys := Json.obj []
    service_configs := Json.obj [] }

/-! ### Shape of service_configs records (claim about the record fields)

A record is well shaped when it is an object carrying the four fields
name, url, credentials (a string-to-string mapping) and webhook_urls (a
sequence of strings). -/

/-- Checks the four-field record shape required of service_configs
entries. -/
def hasServiceShape (j : Json) : Bool :=
  match j with
  | Json.obj kvs =>
      ((kvs.lookup "name").any Json.isStr)
        && ((kvs.lookup "url").any Json.isStr)
        && ((kvs.lookup "credentials").any Json.isStrObj)
        && ((kvs.lookup "webhook_urls").any Json.isStrArr)
  | _ => false

/-! ### Project-name normalization (InteractiveSetup.get_project_name)

The code (lines 248-262) strips the prompt input, lowercases it,
replaces spaces and underscores by hyphens, removes every character
outside lowercase letters, digits and hyphens, removes leading and
trailing hyphen runs, collapses hyphen runs to one hyphen, and accepts
the result when it is nonempty and neither starts nor ends with a
hyphen.  Characters are modelled one at a time; str.lower is modelled
as the ASCII uppercase-to-lowercase map (multi-codepoint and non-ASCII
lowerings of exotic code points are outside the model). -/

/-- ASCII fragment of str.lower, applied character by character. -/
def pyLower (c : Char) : Char :=
  if 'A' ≤ c ∧ c ≤ 'Z' then Char.ofNat (c.toNat + 32) else c

/-- Characterwise model of str.replace for single characters. -/
def replChar (a b : Char) (l : List Char) : List Char :=
  l.map (fun c => if c = a then b else c)

/-- Characters kept by the re.sub removing everything outside
lowercase letters, digits and hyphens. -/
def allowedChar (c : Char) : Bool :=
  decide ((('a' ≤ c ∧ c ≤ 'z') ∨ ('0' ≤ c ∧ c ≤ '9')) ∨ c = '-')

/-- Whitespace characters removed by str.strip (the ASCII set). -/
def isPyWS (c : Char) : Bool :=
  decide (c = ' ' ∨ c = '\t' ∨ c = '\n' ∨ c = '\x0b' ∨ c = '\x0c' ∨ c = '\r')

/-- Tests whether a character is a hyphen. -/
def isDash (c : Char) : Bool := decide (c = '-')

/-- Removes the trailing run of characters satisfying p. -/
def dropTrailBy (p : Char → Bool) : List Char → List Char
  | [] => []
  | a :: t =>
      match dropTrailBy p t with
      | [] => if p a then [] else [a]
      | b :: s => a :: b :: s

/-- Removes the leading hyphen run (half of the re.sub removing leading
and trailing hyphens). -/
def stripLead (l : List Char) : List Char := l.dropWhile isDash

/-- Removes the trailing hyphen run (the other half of that re.sub). -/
def stripTrail (l : List Char) : List Char := dropTrailBy isDash l

/-- Model of str.strip on the prompt input. -/
def pyStrip (l : List Char) : List Char :=
  (dropTrailBy isPyWS l).dropWhile isPyWS

/-- Collapses every hyphen run to a single hyphen (the re.sub replacing
runs of hyphens by one hyphen). -/
def collapse : List Char → List Char
  | [] => []
  | [a] => [a]
  | a :: b :: t =>
      if a = '-' ∧ b = '-' then collapse (b :: t) else a :: collapse (b :: t)

/-- The character cleanup shared by both orderings: lowercase, replace
spaces and underscores by hyphens, keep only allowed characters. -/
def cleanF (l : List Char) : List Char :=
  (replChar '_' '-' (replChar ' ' '-' (l.map pyLower))).filter allowedChar

/-- The hyphen surgery in source order: first remove leading and
trailing hyphen runs, then collapse the remaining runs. -/
def kebabCode (l : List Char) : List Char :=
  collapse (stripLead (stripTrail (cleanF l)))

/-- The hyphen surgery in the order the claim states: first collapse
hyphen runs, then remove leading and trailing hyphens. -/
def kebabSpec (l : List Char) : List Char :=
  stripLead (stripTrail (collapse (cleanF l)))

/-- The acceptance test at line 259: nonempty, and neither starting nor
ending with a hyphen. -/
def acceptName (u : List Char) : Bool :=
  decide (u ≠ [] ∧ u.head? ≠ some '-' ∧ u.getLast? ≠ some '-')

/-- One iteration of the get_project_name loop on a raw input string:
the input is stripped, skipped when empty, normalized, and returned only
when accepted; a none result makes the loop re-prompt. -/
def normalizeName (l : List Char) : Option (List Char) :=
  let t := pyStrip l
  if t = [] then none
  else if acceptName (kebabCode t) then some (kebabCode t) else none

/-- The normalization exactly as the claim words it: lowercase, replace
spaces and underscores with hyphens, strip every character outside the
allowed set, collapse hyphen runs, strip leading and trailing hyphens,
and accept only a nonempty result that neither starts nor ends with a
hyphen. -/
def normalizeSpecName (l : List Char) : Option (List Char) :=
  if acceptName (kebabSpec l) then some (kebabSpec l) else none

/-- Absence of adjacent hyphens (used to state slug validity). -/
def noDoubleDash : List Char → Bool
  | [] => true
  | [_] => true
  | a :: b :: t => (!(a = '-' && b = '-')) && noDoubleDash (b :: t)

/-- Valid slugs in the sense of the claim: nonempty strings over
lowercase letters, digits and hyphens, with no leading, trailing or
doubled hyphen. -/
def validSlug (p : List Char) : Bool :=
  p.all allowedChar && acceptName p && noDoubleDash p

/-! ### Fork URL validation (InteractiveSetup.validate_github_url)

The source builds the pattern
https://github\.com/[^/]+/<escaped name>/?$ and calls re.match.  The
owner part [^/]+ matches one or more characters other than the slash,
so a match splits the remainder after the fixed prefix at its first
slash; the dollar anchor accepts the end of the string or the position
just before a final newline.  The accepted strings are therefore the
prefix, a nonempty slash-free owner, a slash, the literal name, and one
of the four tails: nothing, a slash, a newline, or a slash and a
newline. -/

/-- The fixed URL prefix of the pattern. -/
def ghUrlHead : List Char := "https://github.com/".data

/-- Strips a literal leading sequence, failing when it does not match. -/
def stripHead : List Char → List Char → Option (List Char)
  | [], u => some u
  | _ :: _, [] => none
  | p :: ps, u :: us => if p = u then stripHead ps us else none

/-- Splits a string at its first slash into the slash-free part before
it and the part after it; fails when no slash occurs. -/
def splitFirstSlash : List Char → Option (List Char × List Char)
  | [] => none
  | c :: t =>
      if c = '/' then some ([], t)
      else (splitFirstSlash t).map (fun ab => (c :: ab.1, ab.2))

/-- Matches the pattern against a URL given the list of admissible
tails after the literal name. -/
def ghMatch (tails : List (List Char)) (url name : List Char) : Bool :=
  ((stripHead ghUrlHead url).bind splitFirstSlash).elim false
    (fun ot => decide (ot.1 ≠ []) && decide (ot.2 ∈ tails.map (fun t => name ++ t)))

/-- The tails the dollar anchor admits after the optional slash: the
end of the string or a final newline. -/
def pyDollarTails : List (List Char) := [[], ['/'], ['\n'], ['/', '\n']]

/-- Model of InteractiveSetup.validate_github_url under Python re
semantics. -/
def validate_github_url (url name : List Char) : Bool :=
  ghMatch pyDollarTails url name

/-- The acceptance set the claim describes: the same shape with only
the empty tail or a single trailing slash. -/
def claimGithubForm (url name : List Char) : Bool :=
  ghMatch [[], ['/']] url name

/-! ### Engine example: currency conversion

Floats are modelled as exact rationals; the literal rates of the
EXCHANGE_RATES table are the decimal values written in the source.
Python round uses round-half-to-even. -/

/-- The supported currencies of the Currency enum. -/
inductive Currency : Type where
  | USD | EUR | GBP | JPY | CAD | AUD | CHF | CNY
deriving DecidableEq

/-- The mock EXCHANGE_RATES table. -/
def exchangeRate : Currency → ℚ
  | Currency.USD => 1
  | Currency.EUR => 85 / 100
  | Currency.GBP => 73 / 100
  | Currency.JPY => 110
  | Currency.CAD => 125 / 100
  | Currency.AUD => 135 / 100
  | Currency.CHF => 92 / 100
  | Currency.CNY => 645 / 100

/-- Round-half-to-even to an integer, the model of Python round. -/
def roundHalfEven (q : ℚ) : ℤ :=
  if q - ⌊q⌋ < 1 / 2 then ⌊q⌋
  else if 1 / 2 < q - ⌊q⌋ then ⌊q⌋ + 1
  else if Even ⌊q⌋ then ⌊q⌋ else ⌊q⌋ + 1

/-- Rounding to two decimal places, the model of round(x, 2). -/
def round2 (q : ℚ) : ℚ := (roundHalfEven (q * 100) : ℚ) / 100

/-- Error raised by convert_currency on a negative amount
(ValueError). -/
inductive ConvertErr : Type where
  | negativeAmount
deriving DecidableEq

/-- Model of convert_currency: reject negative amounts, return the
amount untouched when the two currencies coincide, otherwise divide by
the source rate, multiply by the target rate and round to two decimal
places. -/
def convert_currency (amount : ℚ) (fromCur toCur : Currency) :
    Except ConvertErr ℚ :=
  if amount < 0 then Except.error ConvertErr.negativeAmount
  else if fromCur = toCur then Except.ok amount
  else Except.ok (round2 (amount / exchangeRate fromCur * exchangeRate toCur))

/-! ### Engine example: arithmetic

Operation is a str-valued enum, and each comparison op == Operation.X
in the source is string equality because a str enum member compares
equal to its value.  The operation argument is therefore modelled as a
string, so that the final return None branch (reached exactly when the
argument is none of the four member values) is representable.  A raised
ZeroDivisionError is an error result; the fall-through returns the
Python value None, modelled as Option.none inside Except.ok. -/

/-- The four members of the Operation enum. -/
inductive Operation : Type where
  | add | subtract | multiply | divide
deriving DecidableEq

/-- The string value of an Operation member. -/
def Operation.value : Operation → String
  | Operation.add => "add"
  | Operation.subtract => "subtract"
  | Operation.multiply => "multiply"
  | Operation.divide => "divide"

/-- The list of the four member values. -/
def operationValues : List String := ["add", "subtract", "multiply", "divide"]

/-- Error raised by calculate (ZeroDivisionError). -/
inductive CalcErr : Type where
  | zeroDivision
deriving DecidableEq

/-- Model of calculate from arithmetic_example.py. -/
def calculate (a b : ℚ) (op : String) : Except CalcErr (Option ℚ) :=
  if op = "add" then Except.ok (some (a + b))
  else if op = "subtract" then Except.ok (some (a - b))
  else if op = "multiply" then Except.ok (some (a * b))
  else if op = "divide" then
    if b = 0 then Except.error CalcErr.zeroDivision else Except.ok (some (a / b))
  else Except.ok none

/-! ### Helper lemmas

The lemmas below support the claim theorems: unfolding equations for the
recursive string functions, the commutation of hyphen-run collapsing
with the removal of leading and trailing hyphen runs, absorption of the
whitespace strip into the cleanup pipeline, slug facts, the
characterization of the URL matcher, and the persistence round trip. -/

theorem collapse_cons_cons (a b : Char) (t : List Char) :
    collapse (a :: b :: t) =
      if a = '-' ∧ b = '-' then collapse (b :: t) else a :: collapse (b :: t) := rfl

theorem stripLead_cons (a : Char) (t : List Char) :
    stripLead (a :: t) = if a = '-' then stripLead t else a :: t := by
  simp [stripLead, List.dropWhile_cons, isDash]

theorem collapse_head? (l : List Char) : (collapse l).head? = l.head? := by
  induction l using collapse.induct with
  | case1 => rfl
  | case2 a => rfl
  | case3 a b t h ih => rw [collapse_cons_cons, if_pos h, ih]; simp [h.1, h.2]
  | case4 a b t h ih => rw [collapse_cons_cons, if_neg h]; rfl

theorem collapse_ne_nil {l : List Char} (h : l ≠ []) : collapse l ≠ [] := by
  intro hc
  have h2 := collapse_head? l
  rw [hc] at h2
  cases l with
  | nil => exact h rfl
  | cons a t => simp at h2

theorem collapse_cons_ex (c : Char) (s : List Char) :
    ∃ u, collapse (c :: s) = c :: u := by
  have hne : collapse (c :: s) ≠ [] := collapse_ne_nil (by simp)
  cases h3 : collapse (c :: s) with
  | nil => exact absurd h3 hne
  | cons d u =>
      have h4 := collapse_head? (c :: s)
      rw [h3] at h4; simp at h4
      exact ⟨u, by rw [h4]⟩

theorem stripLead_collapse (l : List Char) :
    stripLead (collapse l) = collapse (stripLead l) := by
  induction l using collapse.induct with
  | case1 => rfl
  | case2 a =>
      by_cases ha : a = '-'
      · subst ha; rfl
      · rw [show collapse [a] = [a] from rfl, stripLead_cons, if_neg ha]; rfl
  | case3 a b t h ih =>
      obtain ⟨ha, hb⟩ := h
      subst ha; subst hb
      rw [collapse_cons_cons, if_pos ⟨rfl, rfl⟩, ih, stripLead_cons '-' ('-' :: t),
        if_pos rfl, stripLead_cons '-' t, if_pos rfl]
  | case4 a b t h ih =>
      by_cases ha : a = '-'
      · subst ha
        rw [collapse_cons_cons, if_neg h, stripLead_cons '-' (collapse (b :: t)),
          if_pos rfl, ih, stripLead_cons '-' (b :: t), if_pos rfl]
      · rw [collapse_cons_cons, if_neg h, stripLead_cons a (b :: t), if_neg ha,
          stripLead_cons a (collapse (b :: t)), if_neg ha, collapse_cons_cons, if_neg h]

theorem stripTrail_cons (a : Char) (t : List Char) :
    stripTrail (a :: t) =
      match stripTrail t with
      | [] => if isDash a then [] else [a]
      | b :: s => a :: b :: s := rfl

theorem stripTrail_cons_head {b : Char} {t s : List Char} {c : Char}
    (h : stripTrail (b :: t) = c :: s) : c = b := by
  rw [stripTrail_cons] at h
  cases h2 : stripTrail t with
  | nil =>
      rw [h2] at h
      by_cases hb : isDash b
      · simp [hb] at h
      · simp [hb] at h; exact h.1.symm
  | cons d u => rw [h2] at h; simp at h; exact h.1.symm

theorem stripTrail_collapse (l : List Char) :
    stripTrail (collapse l) = collapse (stripTrail l) := by
  induction l using collapse.induct with
  | case1 => rfl
  | case2 a =>
      by_cases ha : a = '-'
      · subst ha; rfl
      · rw [show collapse [a] = [a] from rfl]
        rw [show stripTrail [a] = if isDash a then [] else [a] from rfl]
        have hda : isDash a = false := by simp [isDash, ha]
        rw [hda]; rfl
  | case3 a b t h ih =>
      obtain ⟨ha, hb⟩ := h
      subst ha; subst hb
      rw [collapse_cons_cons, if_pos ⟨rfl, rfl⟩, ih, stripTrail_cons '-' ('-' :: t)]
      cases hd : stripTrail ('-' :: t) with
      | nil => simp [isDash]
      | cons c s =>
          have hc : c = '-' := stripTrail_cons_head hd
          subst hc
          show collapse ('-' :: s) = collapse ('-' :: '-' :: s)
          rw [collapse_cons_cons, if_pos ⟨rfl, rfl⟩]
  | case4 a b t h ih =>
      rw [collapse_cons_cons, if_neg h, stripTrail_cons a (collapse (b :: t)), ih,
        stripTrail_cons a (b :: t)]
      cases hd : stripTrail (b :: t) with
      | nil =>
          show (match collapse [] with
                | [] => if isDash a then [] else [a]
                | b :: s => a :: b :: s) =
            collapse (if isDash a then [] else [a])
          by_cases hda : isDash a
          · simp [hda]; rfl
          · simp [hda]; rfl
      | cons c s =>
          have hc : c = b := stripTrail_cons_head hd
          subst hc
          show (match collapse (c :: s) with
                | [] => if isDash a then [] else [a]
                | b :: s => a :: b :: s) =
            collapse (a :: c :: s)
          obtain ⟨u, hu⟩ := collapse_cons_ex c s
          rw [hu]
          show a :: c :: u = collapse (a :: c :: s)
          rw [collapse_cons_cons, if_neg h, hu]

theorem kebab_eq (l : List Char) : kebabSpec l = kebabCode l := by
  unfold kebabSpec kebabCode
  rw [stripTrail_collapse, stripLead_collapse]

theorem dropTrailBy_cons (p : Char → Bool) (a : Char) (t : List Char) :
    dropTrailBy p (a :: t) =
      match dropTrailBy p t with
      | [] => if p a then [] else [a]
      | b :: s => a :: b :: s := rfl

theorem dropTrailBy_append (p : Char → Bool) (x y : List Char) :
    dropTrailBy p (x ++ y) =
      if dropTrailBy p y = [] then dropTrailBy p x else x ++ dropTrailBy p y := by
  induction x with
  | nil =>
      show dropTrailBy p y = _
      by_cases hy : dropTrailBy p y = []
      · rw [if_pos hy, hy]; rfl
      · rw [if_neg hy]; rfl
  | cons a x ih =>
      show dropTrailBy p (a :: (x ++ y)) = _
      rw [dropTrailBy_cons, ih]
      by_cases hy : dropTrailBy p y = []
      · rw [if_pos hy, if_pos hy, ← dropTrailBy_cons]
      · rw [if_neg hy, if_neg hy]
        cases hx : x ++ dropTrailBy p y with
        | nil => exact absurd (List.append_eq_nil.mp hx).2 hy
        | cons b s => rw [List.cons_append, hx]

theorem dropTrailBy_all_true (p : Char → Bool) (d : List Char)
    (h : ∀ c ∈ d, p c = true) : dropTrailBy p d = [] := by
  induction d with
  | nil => rfl
  | cons a t ih =>
      rw [dropTrailBy_cons, ih (fun c hc => h c (List.mem_cons_of_mem a hc))]
      simp [h a (List.mem_cons_self a t)]

theorem allDash_all_isDash {d : List Char} (h : ∀ c ∈ d, c = '-') :
    ∀ c ∈ d, isDash c = true := fun c hc => by simp [isDash, h c hc]

theorem stripTrail_append_dash {d : List Char} (h : ∀ c ∈ d, c = '-') (y : List Char) :
    stripTrail (y ++ d) = stripTrail y := by
  unfold stripTrail
  rw [dropTrailBy_append, dropTrailBy_all_true isDash d (allDash_all_isDash h), if_pos rfl]

theorem stripLead_dash_append {d : List Char} (h : ∀ c ∈ d, c = '-') (y : List Char) :
    stripLead (d ++ y) = stripLead y := by
  induction d with
  | nil => rfl
  | cons a t ih =>
      have ha : a = '-' := h a (List.mem_cons_self a t)
      rw [List.cons_append, stripLead_cons, if_pos ha]
      exact ih (fun c hc => h c (List.mem_cons_of_mem a hc))

theorem stripEnds_dash_append {d : List Char} (h : ∀ c ∈ d, c = '-') (y : List Char) :
    stripLead (stripTrail (d ++ y)) = stripLead (stripTrail y) := by
  unfold stripTrail
  rw [dropTrailBy_append]
  by_cases hy : dropTrailBy isDash y = []
  · rw [if_pos hy, hy, dropTrailBy_all_true isDash d (allDash_all_isDash h)]
  · rw [if_neg hy]
    exact stripLead_dash_append h (dropTrailBy isDash y)

theorem cleanF_append (x y : List Char) : cleanF (x ++ y) = cleanF x ++ cleanF y := by
  simp [cleanF, replChar, List.filter_append]

theorem ws_cleanF_dash {w : List Char} (h : ∀ c ∈ w, isPyWS c = true) :
    ∀ c ∈ cleanF w, c = '-' := by
  intro c hc
  unfold cleanF at hc
  have hc2 := List.of_mem_filter hc
  have hc3 := List.mem_of_mem_filter hc
  unfold replChar at hc3
  simp only [List.mem_map] at hc3
  obtain ⟨c2, hc2m, hc2e⟩ := hc3
  obtain ⟨c1, hc1m, hc1e⟩ := hc2m
  obtain ⟨c0, hc0m, hc0e⟩ := hc1m
  have hw := h c0 hc0m
  simp only [isPyWS, decide_eq_true_eq] at hw
  have hlow : pyLower c0 = c0 := by
    rcases hw with h0 | h0 | h0 | h0 | h0 | h0 <;> subst h0 <;> rfl
  rw [hlow] at hc0e
  subst hc0e
  rcases hw with h0 | h0 | h0 | h0 | h0 | h0 <;> subst h0 <;>
    first
      | (rw [if_pos rfl] at hc1e; subst hc1e;
         rw [if_neg (by decide)] at hc2e; subst hc2e; rfl)
      | (rw [if_neg (by decide)] at hc1e; subst hc1e;
         rw [if_neg (by decide)] at hc2e; subst hc2e;
         exact absurd hc2 (by decide))

theorem dropTrailBy_decomp (p : Char → Bool) (l : List Char) :
    ∃ w, l = dropTrailBy p l ++ w ∧ ∀ c ∈ w, p c = true := by
  induction l with
  | nil => exact ⟨[], rfl, by simp⟩
  | cons a t ih =>
      obtain ⟨w, hw, hall⟩ := ih
      rw [dropTrailBy_cons]
      cases hd : dropTrailBy p t with
      | nil =>
          rw [hd] at hw
          by_cases hp : p a
          · refine ⟨a :: w, ?_, ?_⟩
            · simp [hp, hw]
            · intro c hc
              rcases List.mem_cons.mp hc with h1 | h1
              · rw [h1]; exact hp
              · exact hall c h1
          · refine ⟨w, ?_, hall⟩
            simp [hp]
            exact hw
      | cons b s =>
          rw [hd] at hw
          exact ⟨w, by simpa using hw, hall⟩

theorem pyStrip_decomp (l : List Char) :
    ∃ w1 w2, (∀ c ∈ w1, isPyWS c = true) ∧ (∀ c ∈ w2, isPyWS c = true) ∧
      l = w1 ++ pyStrip l ++ w2 := by
  obtain ⟨w2, hw2, hall2⟩ := dropTrailBy_decomp isPyWS l
  refine ⟨(dropTrailBy isPyWS l).takeWhile isPyWS, w2, ?_, hall2, ?_⟩
  · intro c hc; exact List.mem_takeWhile_imp hc
  · unfold pyStrip
    conv_lhs => rw [hw2]
    rw [← List.takeWhile_append_dropWhile (p := isPyWS) (l := dropTrailBy isPyWS l)]
    simp [List.append_assoc]

theorem kebabCode_pyStrip (l : List Char) : kebabCode l = kebabCode (pyStrip l) := by
  obtain ⟨w1, w2, h1, h2, hdec⟩ := pyStrip_decomp l
  unfold kebabCode
  conv_lhs => rw [hdec]
  rw [cleanF_append, cleanF_append,
    show cleanF w1 ++ cleanF (pyStrip l) ++ cleanF w2
      = (cleanF w1 ++ cleanF (pyStrip l)) ++ cleanF w2 from by simp [List.append_assoc],
    stripTrail_append_dash (ws_cleanF_dash h2) (cleanF w1 ++ cleanF (pyStrip l)),
    show stripLead (stripTrail (cleanF w1 ++ cleanF (pyStrip l)))
      = stripLead (stripTrail (cleanF (pyStrip l)))
      from stripEnds_dash_append (ws_cleanF_dash h1) (cleanF (pyStrip l))]

theorem normalizeName_eq_spec (l : List Char) : normalizeName l = normalizeSpecName l := by
  unfold normalizeName normalizeSpecName
  rw [kebab_eq, kebabCode_pyStrip l]
  by_cases ht : pyStrip l = []
  · rw [if_pos ht, ht]
    show none = if acceptName (kebabCode []) then _ else none
    rw [show kebabCode [] = [] from rfl, show acceptName [] = false from rfl]
    rfl
  · rw [if_neg ht]

theorem map_self {f : Char → Char} {l : List Char} (h : ∀ c ∈ l, f c = c) :
    l.map f = l := by
  induction l with
  | nil => rfl
  | cons a t ih =>
      rw [List.map_cons, h a (List.mem_cons_self a t),
        ih (fun c hc => h c (List.mem_cons_of_mem a hc))]

theorem replChar_self {a b : Char} {l : List Char} (h : ∀ c ∈ l, ¬ c = a) :
    replChar a b l = l := by
  unfold replChar
  exact map_self (fun c hc => if_neg (h c hc))

theorem dropWhile_all_false {p : Char → Bool} {l : List Char}
    (h : ∀ c ∈ l, p c = false) : l.dropWhile p = l := by
  cases l with
  | nil => rfl
  | cons a t =>
      rw [List.dropWhile_cons, h a (List.mem_cons_self a t)]
      simp

theorem dropTrailBy_all_false {p : Char → Bool} {l : List Char}
    (h : ∀ c ∈ l, p c = false) : dropTrailBy p l = l := by
  induction l with
  | nil => rfl
  | cons a t ih =>
      rw [dropTrailBy_cons, ih (fun c hc => h c (List.mem_cons_of_mem a hc))]
      cases t with
      | nil => simp [h a (List.mem_cons_self a [])]
      | cons b s => rfl

theorem dropTrailBy_getLast_false {p : Char → Bool} {l : List Char}
    (h : ∀ c, l.getLast? = some c → p c = false) : dropTrailBy p l = l := by
  induction l with
  | nil => rfl
  | cons a t ih =>
      cases t with
      | nil =>
          rw [dropTrailBy_cons]
          simp only [h a rfl]
          rfl
      | cons b s =>
          rw [dropTrailBy_cons, ih (fun c hc => h c (by rw [List.getLast?_cons_cons]; exact hc))]

theorem allowed_pyLower {c : Char} (h : allowedChar c = true) : pyLower c = c := by
  unfold pyLower
  simp only [allowedChar, decide_eq_true_eq] at h
  have hneg : ¬('A' ≤ c ∧ c ≤ 'Z') := by
    rintro ⟨h1, h2⟩
    rcases h with (⟨ha, hb⟩ | ⟨ha, hb⟩) | ha
    · exact absurd (le_trans ha h2) (by decide)
    · exact absurd (le_trans h1 hb) (by decide)
    · subst ha; exact absurd h1 (by decide)
  rw [if_neg hneg]

theorem allowed_not_ws {c : Char} (h : allowedChar c = true) : isPyWS c = false := by
  simp only [isPyWS, decide_eq_false_iff_not]
  intro hw
  rcases hw with h0 | h0 | h0 | h0 | h0 | h0 <;> subst h0 <;> exact absurd h (by decide)

theorem allowed_not_space {c : Char} (h : allowedChar c = true) : ¬ c = ' ' := by
  intro h0; subst h0; exact absurd h (by decide)

theorem allowed_not_under {c : Char} (h : allowedChar c = true) : ¬ c = '_' := by
  intro h0; subst h0; exact absurd h (by decide)

theorem cleanF_self {l : List Char} (h : ∀ c ∈ l, allowedChar c = true) :
    cleanF l = l := by
  unfold cleanF
  rw [map_self (fun c hc => allowed_pyLower (h c hc)),
    replChar_self (fun c hc => allowed_not_space (h c hc)),
    replChar_self (fun c hc => allowed_not_under (h c hc)),
    List.filter_eq_self.mpr h]

theorem noDD_cons_cons (a b : Char) (t : List Char) :
    noDoubleDash (a :: b :: t) = ((!(a = '-' && b = '-')) && noDoubleDash (b :: t)) := rfl

theorem collapse_of_noDD {l : List Char} (h : noDoubleDash l = true) :
    collapse l = l := by
  induction l using collapse.induct with
  | case1 => rfl
  | case2 a => rfl
  | case3 a b t hab ih =>
      obtain ⟨ha, hb⟩ := hab
      subst ha; subst hb
      rw [noDD_cons_cons] at h
      simp at h
  | case4 a b t hab ih =>
      rw [noDD_cons_cons] at h
      rw [collapse_cons_cons, if_neg hab, ih (Bool.and_elim_right h)]

theorem noDD_collapse (l : List Char) : noDoubleDash (collapse l) = true := by
  induction l using collapse.induct with
  | case1 => rfl
  | case2 a => rfl
  | case3 a b t hab ih => rw [collapse_cons_cons, if_pos hab]; exact ih
  | case4 a b t hab ih =>
      rw [collapse_cons_cons, if_neg hab]
      obtain ⟨u, hu⟩ := collapse_cons_ex b t
      rw [hu]
      rw [hu] at ih
      rw [noDD_cons_cons, ih]
      simp only [Bool.and_true]
      simp
      exact not_and_or.mp hab

theorem mem_collapse {c : Char} {l : List Char} (h : c ∈ collapse l) : c ∈ l := by
  induction l using collapse.induct with
  | case1 => exact h
  | case2 a => exact h
  | case3 a b t hab ih =>
      rw [collapse_cons_cons, if_pos hab] at h
      exact List.mem_cons_of_mem a (ih h)
  | case4 a b t hab ih =>
      rw [collapse_cons_cons, if_neg hab] at h
      rcases List.mem_cons.mp h with h1 | h1
      · rw [h1]; exact List.mem_cons_self a _
      · exact List.mem_cons_of_mem a (ih h1)

theorem mem_dropTrailBy {p : Char → Bool} {c : Char} {l : List Char}
    (h : c ∈ dropTrailBy p l) : c ∈ l := by
  obtain ⟨w, hw, _⟩ := dropTrailBy_decomp p l
  rw [hw]
  exact List.mem_append_left w h

theorem mem_stripLead {c : Char} {l : List Char} (h : c ∈ stripLead l) : c ∈ l := by
  have h2 := List.takeWhile_append_dropWhile isDash l
  rw [← h2]
  exact List.mem_append_right _ h

theorem stripLead_of_head {l : List Char} (h : l.head? ≠ some '-') :
    stripLead l = l := by
  cases l with
  | nil => rfl
  | cons a t =>
      rw [stripLead_cons, if_neg]
      intro ha
      exact h (by rw [ha]; rfl)

theorem acceptName_parts {u : List Char} (h : acceptName u = true) :
    u ≠ [] ∧ u.head? ≠ some '-' ∧ u.getLast? ≠ some '-' := by
  simpa [acceptName] using h

theorem slug_identity {p : List Char} (h : validSlug p = true) :
    normalizeName p = some p := by
  unfold validSlug at h
  rw [Bool.and_eq_true, Bool.and_eq_true] at h
  obtain ⟨⟨hall, hacc⟩, hnodd⟩ := h
  have hallm : ∀ c ∈ p, allowedChar c = true := List.all_eq_true.mp hall
  obtain ⟨hne, hhead, hlast⟩ := acceptName_parts hacc
  have hstrip : pyStrip p = p := by
    unfold pyStrip
    rw [dropTrailBy_all_false (fun c hc => allowed_not_ws (hallm c hc)),
      dropWhile_all_false (fun c hc => allowed_not_ws (hallm c hc))]
  have htrail : stripTrail p = p := by
    unfold stripTrail
    refine dropTrailBy_getLast_false ?_
    intro c hc
    simp only [isDash, decide_eq_false_iff_not]
    intro hcc
    subst hcc
    exact hlast hc
  have hkebab : kebabCode p = p := by
    unfold kebabCode
    rw [cleanF_self hallm, htrail, stripLead_of_head hhead]
    exact collapse_of_noDD hnodd
  unfold normalizeName
  rw [hstrip, if_neg hne, hkebab, if_pos hacc]

theorem norm_gives_slug {l u : List Char} (h : normalizeName l = some u) :
    validSlug u = true := by
  unfold normalizeName at h
  by_cases h1 : pyStrip l = []
  · rw [if_pos h1] at h; exact absurd h (by simp)
  rw [if_neg h1] at h
  by_cases h2 : acceptName (kebabCode (pyStrip l)) = true
  · rw [if_pos h2] at h
    have hu : u = kebabCode (pyStrip l) := (Option.some.inj h).symm
    subst hu
    unfold validSlug
    rw [Bool.and_eq_true, Bool.and_eq_true]
    refine ⟨⟨?_, h2⟩, ?_⟩
    · refine List.all_eq_true.mpr ?_
      intro c hc
      unfold kebabCode at hc
      have hc1 := mem_collapse hc
      have hc2 := mem_stripLead hc1
      have hc3 : c ∈ cleanF (pyStrip l) := mem_dropTrailBy hc2
      unfold cleanF at hc3
      exact List.of_mem_filter hc3
    · exact noDD_collapse _
  · rw [if_neg h2] at h; exact absurd h (by simp)

theorem stripHead_sound {p u r : List Char} (h : stripHead p u = some r) :
    u = p ++ r := by
  induction p generalizing u with
  | nil => simpa using Option.some.inj h
  | cons a ps ih =>
      cases u with
      | nil => exact absurd h (by simp [stripHead])
      | cons b us =>
          unfold stripHead at h
          by_cases hab : a = b
          · rw [if_pos hab] at h
            rw [List.cons_append, ← ih h, hab]
          · rw [if_neg hab] at h
            exact absurd h (by simp)

theorem stripHead_complete (p r : List Char) : stripHead p (p ++ r) = some r := by
  induction p with
  | nil => rfl
  | cons a ps ih =>
      show stripHead (a :: ps) (a :: (ps ++ r)) = some r
      unfold stripHead
      rw [if_pos rfl]
      exact ih

theorem splitFirstSlash_sound {l a t : List Char}
    (h : splitFirstSlash l = some (a, t)) :
    l = a ++ '/' :: t ∧ ∀ c ∈ a, ¬ c = '/' := by
  induction l generalizing a with
  | nil => exact absurd h (by simp [splitFirstSlash])
  | cons c cs ih =>
      unfold splitFirstSlash at h
      by_cases hc : c = '/'
      · rw [if_pos hc] at h
        obtain ⟨h1, h2⟩ := Prod.mk.injEq .. ▸ Option.some.inj h
        subst hc
        constructor
        · rw [← h1, ← h2]; rfl
        · rw [← h1]; simp
      · rw [if_neg hc] at h
        cases hsp : splitFirstSlash cs with
        | none => rw [hsp] at h; exact absurd h (by simp)
        | some ab =>
            rw [hsp] at h
            simp only [Option.map_some'] at h
            obtain ⟨h1, h2⟩ := Prod.mk.injEq .. ▸ Option.some.inj h
            obtain ⟨hcs, hmem⟩ := ih (a := ab.1) (by rw [hsp, ← h2])
            constructor
            · rw [← h1, List.cons_append, ← hcs]
            · intro d hd
              rw [← h1] at hd
              rcases List.mem_cons.mp hd with h3 | h3
              · rw [h3]; exact hc
              · exact hmem d h3

theorem splitFirstSlash_complete {a : List Char} (t : List Char)
    (h : ∀ c ∈ a, ¬ c = '/') :
    splitFirstSlash (a ++ '/' :: t) = some (a, t) := by
  induction a with
  | nil =>
      rw [List.nil_append]
      unfold splitFirstSlash
      rw [if_pos rfl]
  | cons c cs ih =>
      show splitFirstSlash (c :: (cs ++ '/' :: t)) = _
      unfold splitFirstSlash
      rw [if_neg (h c (List.mem_cons_self c cs)),
        ih (fun d hd => h d (List.mem_cons_of_mem c hd))]
      rfl

theorem ghMatch_iff (ts : List (List Char)) (url name : List Char) :
    ghMatch ts url name = true ↔
      ∃ owner t, owner ≠ [] ∧ (∀ c ∈ owner, ¬ c = '/') ∧ t ∈ ts ∧
        url = ghUrlHead ++ owner ++ '/' :: (name ++ t) := by
  constructor
  · intro h
    unfold ghMatch at h
    cases hs : stripHead ghUrlHead url with
    | none => rw [hs] at h; simp at h
    | some rest =>
        rw [hs] at h
        simp only [Option.some_bind] at h
        cases hsp : splitFirstSlash rest with
        | none => rw [hsp] at h; simp at h
        | some ot =>
            rw [hsp] at h
            simp only [Option.some_bind, Option.elim_some] at h
            rw [Bool.and_eq_true, decide_eq_true_eq, decide_eq_true_eq] at h
            obtain ⟨hne, htail⟩ := h
            obtain ⟨t, hts, hteq⟩ := List.mem_map.mp htail
            obtain ⟨hrest, hmem⟩ := splitFirstSlash_sound (a := ot.1) (t := ot.2) (by rw [hsp])
            refine ⟨ot.1, t, hne, hmem, hts, ?_⟩
            rw [stripHead_sound hs, hrest, ← hteq]
            simp [List.append_assoc]
  · rintro ⟨owner, t, hne, hmem, hts, rfl⟩
    unfold ghMatch
    rw [show ghUrlHead ++ owner ++ '/' :: (name ++ t)
      = ghUrlHead ++ (owner ++ '/' :: (name ++ t)) from by simp [List.append_assoc],
      stripHead_complete]
    simp only [Option.some_bind]
    rw [splitFirstSlash_complete (name ++ t) hmem]
    simp only [Option.elim_some]
    rw [Bool.and_eq_true, decide_eq_true_eq, decide_eq_true_eq]
    exact ⟨hne, List.mem_map.mpr ⟨t, hts, rfl⟩⟩

theorem isStrArr_not_null {j : Json} (h : j.isStrArr = true) : j.isNull = false := by
  cases j <;> simp [Json.isStrArr, Json.isNull] at *

theorem isStrObj_not_null {j : Json} (h : j.isStrObj = true) : j.isNull = false := by
  cases j <;> simp [Json.isStrObj, Json.isNull] at *

theorem isObjObj_not_null {j : Json} (h : j.isObjObj = true) : j.isNull = false := by
  cases j <;> simp [Json.isObjObj, Json.isNull] at *

theorem postInit_not_null (q : SetupProgressJ) :
    (postInit q).completed_services.isNull = false ∧
    (postInit q).api_keys.isNull = false ∧
    (postInit q).service_configs.isNull = false := by
  unfold postInit
  refine ⟨?_, ?_, ?_⟩ <;> dsimp only
  · by_cases h : q.completed_services.isNull = true
    · rw [if_pos h]; rfl
    · rw [if_neg h]; simpa using h
  · by_cases h : q.api_keys.isNull = true
    · rw [if_pos h]; rfl
    · rw [if_neg h]; simpa using h
  · by_cases h : q.service_configs.isNull = true
    · rw [if_pos h]; rfl
    · rw [if_neg h]; simpa using h

theorem from_dict_obj (kvs : List (String × Json)) :
    SetupProgress.from_dict (Json.obj kvs) =
      if kvs.all (fun kv => setupProgressFields.contains kv.1) then
        some (postInit
          { current_step := (kvs.lookup "current_step").getD (Json.num 1)
            project_name := (kvs.lookup "project_name").getD (Json.str "")
            completed_services := (kvs.lookup "completed_services").getD Json.null
            api_keys := (kvs.lookup "api_keys").getD Json.null
            service_configs := (kvs.lookup "service_configs").getD Json.null })
      else none := rfl

theorem save_load_aux (p : SetupProgressJ) (h : structValid p = true) :
    load_progress (save_progress p) = some p := by
  unfold structValid at h
  rw [Bool.and_eq_true, Bool.and_eq_true, Bool.and_eq_true, Bool.and_eq_true] at h
  obtain ⟨⟨⟨⟨h1, h2⟩, h3⟩, h4⟩, h5⟩ := h
  have e1 : load_progress (save_progress p) =
      SetupProgress.from_dict (Json.obj
        [("current_step", p.current_step), ("project_name", p.project_name),
         ("completed_services", p.completed_services), ("api_keys", p.api_keys),
         ("service_configs", p.service_configs)]) := rfl
  rw [e1, from_dict_obj, if_pos (by simp [setupProgressFields])]
  simp [List.lookup]
  unfold postInit
  simp only [isStrArr_not_null h3, isStrObj_not_null h4, isObjObj_not_null h5,
    Bool.false_eq_true, if_false]


/-! ### Claim theorems -/

/-- Claim C1 (code bug evidence): step_polar_billing appends the polar
identifier and saves progress in mid-step, before the API token and
webhook secret prompts.  Aborting at one of those prompts leaves a
persisted state that already lists polar; a rerun that resumes and
completes step 4 appends polar again, so after the step completes the
identifier occurs twice in completed_services even though current_step
advanced by exactly one (4 to 5).  This contradicts the claim that the
identifier appears exactly once regardless of aborts and retries. -/
theorem polar_step_retry_duplicates_identifier :
    (polarMidSave progressAtStep4 polarInputsA).completed_services.count "polar" = 1 ∧
    (seqAdvance (stepPolar (polarMidSave progressAtStep4 polarInputsA)
      polarInputsA)).completed_services.count "polar" = 2 ∧
    (seqAdvance (stepPolar (polarMidSave progressAtStep4 polarInputsA)
      polarInputsA)).current_step = 5 ∧
    progressAtStep4.completed_services.count "polar" = 0 := by
  refine ⟨?_, ?_, ?_, ?_⟩ <;> rfl

/-- Claim C2 (counterexample): a persisted file holding the JSON object
with current_step bound to the string "5" loads successfully into a
SetupProgress whose current_step is a string, so the loaded value is not
structurally valid in the sense of the declared field types. -/
theorem load_progress_returns_ill_typed_state :
    load_progress (FileState.json (Json.obj [("current_step", Json.str "5")])) =
      some illTypedProgressJ ∧
    structValid illTypedProgressJ = false := ⟨rfl, rfl⟩

/-- Claim C2 (amended): load_progress returns none whenever the file is
absent, unreadable or malformed, and never raises; any value it does
return has all five fields present with null collection fields replaced
by empty collections, but the declared field types are not enforced. -/
theorem load_progress_failure_modes :
    (∀ fs : FileState,
      fs = FileState.absent ∨ fs = FileState.unreadable ∨ fs = FileState.malformed →
        load_progress fs = none) ∧
    (∀ (fs : FileState) (p : SetupProgressJ), load_progress fs = some p →
      p.completed_services.isNull = false ∧ p.api_keys.isNull = false ∧
        p.service_configs.isNull = false) := by
  constructor
  · rintro fs (rfl | rfl | rfl) <;> rfl
  · intro fs p h
    cases fs with
    | absent => exact absurd h (by simp [load_progress])
    | unreadable => exact absurd h (by simp [load_progress])
    | malformed => exact absurd h (by simp [load_progress])
    | json j =>
        cases j with
        | obj kvs =>
            rw [show load_progress (FileState.json (Json.obj kvs))
              = SetupProgress.from_dict (Json.obj kvs) from rfl, from_dict_obj] at h
            by_cases hall : (kvs.all fun kv => setupProgressFields.contains kv.1) = true
            · rw [if_pos hall] at h
              rw [← Option.some.inj h]
              exact postInit_not_null _
            · rw [if_neg hall] at h
              exact absurd h (by simp)
        | null => exact absurd h (by simp [load_progress, SetupProgress.from_dict])
        | bool b => exact absurd h (by simp [load_progress, SetupProgress.from_dict])
        | num q => exact absurd h (by simp [load_progress, SetupProgress.from_dict])
        | str s => exact absurd h (by simp [load_progress, SetupProgress.from_dict])
        | arr xs => exact absurd h (by simp [load_progress, SetupProgress.from_dict])

/-- Claim C2 witness: the amended theorem applied at the absent and
malformed file states and at the empty-object file. -/
theorem load_progress_failure_modes_witness :
    load_progress FileState.absent = none ∧
    load_progress FileState.malformed = none ∧
    defaultSetupProgressJ.completed_services.isNull = false :=
  ⟨load_progress_failure_modes.1 FileState.absent (Or.inl rfl),
   load_progress_failure_modes.1 FileState.malformed (Or.inr (Or.inr rfl)),
   (load_progress_failure_modes.2 (FileState.json (Json.obj []))
     defaultSetupProgressJ rfl).1⟩

/-- Claim C3: for every structurally valid SetupProgress p, saving and
then loading returns exactly p, and saving the loaded state writes the
same file content back (save after load is a no-op on well-formed
persisted state). -/
theorem save_progress_load_progress_roundtrip (p : SetupProgressJ)
    (h : structValid p = true) :
    load_progress (save_progress p) = some p ∧
    save_progress ((load_progress (save_progress p)).getD defaultSetupProgressJ) =
      save_progress p := by
  have h1 := save_load_aux p h
  refine ⟨h1, ?_⟩
  rw [h1, Option.getD_some]

/-- Claim C3 witness: the round trip at the default progress value. -/
theorem save_progress_load_progress_roundtrip_witness :
    structValid defaultSetupProgressJ = true ∧
    load_progress (save_progress defaultSetupProgressJ) = some defaultSetupProgressJ := by
  have hv : structValid defaultSetupProgressJ = true := rfl
  exact ⟨hv, (save_progress_load_progress_roundtrip defaultSetupProgressJ hv).1⟩

/-- Claim C4: the normalization computed by get_project_name agrees with
the pipeline exactly as the claim words it (lowercase, replace spaces
and underscores with hyphens, strip disallowed characters, collapse
hyphen runs, strip leading and trailing hyphens, accept only a nonempty
result with no hyphen at either end) on every raw input string, and the
sample raw input normalizes to my-app-name. -/
theorem project_name_normalization_matches_claim :
    (∀ l : List Char, normalizeName l = normalizeSpecName l) ∧
    normalizeName "  My_App Name!! ".data = some "my-app-name".data :=
  ⟨normalizeName_eq_spec, by decide⟩

/-- Claim C5: normalization is idempotent (a successfully normalized
name normalizes to itself), and it is the identity on every valid slug. -/
theorem project_name_normalization_idempotent :
    (∀ l u : List Char, normalizeName l = some u → normalizeName u = some u) ∧
    (∀ p : List Char, validSlug p = true → normalizeName p = some p) := by
  constructor
  · intro l u h
    exact slug_identity (norm_gives_slug h)
  · intro p hp
    exact slug_identity hp

/-- Claim C5 witness: idempotence applied to the normalization of a raw
string, and slug identity applied to a concrete slug. -/
theorem project_name_normalization_idempotent_witness :
    normalizeName "my-app-name".data = some "my-app-name".data ∧
    normalizeName "open-idealista".data = some "open-idealista".data :=
  ⟨project_name_normalization_idempotent.1 "  My_App Name!! ".data
     "my-app-name".data (by decide),
   project_name_normalization_idempotent.2 "open-idealista".data (by decide)⟩

/-- Claim C6 (counterexample): the code accepts the scenario URL with a
trailing newline character, which is not of the claimed form (owner,
slash, literal name, optional single trailing slash), because the Python
dollar anchor also matches just before a final newline. -/
theorem github_url_accepts_trailing_newline :
    validate_github_url "https://github.com/alice/foo-bar\n".data "foo-bar".data = true ∧
    claimGithubForm "https://github.com/alice/foo-bar\n".data "foo-bar".data = false := by
  constructor <;> decide

/-- Claim C6 (amended): validate_github_url accepts exactly the strings
built from the fixed prefix, a nonempty slash-free owner, a slash, the
literal project name, and one of the four tails empty, slash, newline,
or slash-newline; the three scenario checks behave as the claim states. -/
theorem github_url_acceptance_characterization :
    (∀ url name : List Char, validate_github_url url name = true ↔
      ∃ owner t, owner ≠ [] ∧ (∀ c ∈ owner, ¬ c = '/') ∧ t ∈ pyDollarTails ∧
        url = ghUrlHead ++ owner ++ '/' :: (name ++ t)) ∧
    validate_github_url "https://github.com/alice/foo-bar".data "foo-bar".data = true ∧
    validate_github_url "https://github.com/alice/foo-bar/extra".data "foo-bar".data = false ∧
    validate_github_url "https://github.com/alice/foo-baz".data "foo-bar".data = false := by
  refine ⟨fun url name => ghMatch_iff pyDollarTails url name, ?_, ?_, ?_⟩ <;> decide

/-- Claim C7 (counterexample): the record that step_2_vercel_manual
stores under the vercel key has no webhook_urls field, so not every
stored record carries all four fields. -/
theorem vercel_record_lacks_webhook_urls :
    hasServiceShape (vercelConfigJson "https://my-app.vercel.app") = false := rfl

/-- Claim C7 (amended): the record written by step_polar_billing carries
all four fields for every choice of inputs, while the record written by
step_2_vercel_manual carries name, url and credentials and lacks the
webhook_urls field. -/
theorem service_config_record_shapes :
    (∀ dash org pro biz env pn : String,
      hasServiceShape (polarConfigJson dash org pro biz env pn) = true) ∧
    (∀ u : String,
      ((match vercelConfigJson u with
        | Json.obj kvs => kvs.lookup "name"
        | _ => none).any Json.isStr = true ∧
       (match vercelConfigJson u with
        | Json.obj kvs => kvs.lookup "url"
        | _ => none).any Json.isStr = true ∧
       (match vercelConfigJson u with
        | Json.obj kvs => kvs.lookup "credentials"
        | _ => none).any Json.isStrObj = true ∧
       (match vercelConfigJson u with
        | Json.obj kvs => kvs.lookup "webhook_urls"
        | _ => none) = none)) := by
  constructor
  · intro dash org pro biz env pn; rfl
  · intro u; exact ⟨rfl, rfl, rfl, rfl⟩

/-- Claim C8 (counterexample): when source and target currency coincide
the amount is returned unrounded, so converting 1.234 USD to USD yields
1.234, which is not a value rounded to two decimal places. -/
theorem convert_same_currency_unrounded :
    convert_currency (1234 / 1000) Currency.USD Currency.USD =
      Except.ok (1234 / 1000) ∧
    round2 (1234 / 1000) ≠ 1234 / 1000 := by
  constructor
  · unfold convert_currency
    rw [if_neg (by norm_num), if_pos rfl]
  · unfold round2 roundHalfEven
    rw [show ((1234 : ℚ) / 1000 * 100) = 617 / 5 from by norm_num,
      show ⌊(617 / 5 : ℚ)⌋ = 123 from by rw [Int.floor_eq_iff] ; norm_num,
      if_pos (by norm_num)]
    norm_num

/-- Claim C8 (amended): for every non-negative amount, conversion
between distinct supported currencies returns the converted value
rounded to two decimal places, while conversion between identical
currencies returns the amount unchanged without rounding. -/
theorem convert_currency_rounds_distinct_currencies
    (amount : ℚ) (f t : Currency) (h : 0 ≤ amount) :
    convert_currency amount f t =
      Except.ok (if f = t then amount else
        round2 (amount / exchangeRate f * exchangeRate t)) := by
  unfold convert_currency
  rw [if_neg (not_lt.mpr h)]
  by_cases hft : f = t
  · rw [if_pos hft, if_pos hft]
  · rw [if_neg hft, if_neg hft]

/-- Claim C8 witness: the amended theorem applied to converting 100 USD
to EUR. -/
theorem convert_currency_rounds_witness :
    convert_currency 100 Currency.USD Currency.EUR =
      Except.ok (if Currency.USD = Currency.EUR then (100 : ℚ) else
        round2 (100 / exchangeRate Currency.USD * exchangeRate Currency.EUR)) :=
  convert_currency_rounds_distinct_currencies 100 Currency.USD Currency.EUR (by norm_num)

/-- Claim C9 (counterexample): an operation string outside the enum
makes calculate return the Python value None rather than raising any
error, while dividing by zero raises ZeroDivisionError; the unknown
operation therefore yields no error at all. -/
theorem calculate_unknown_operation_returns_none :
    calculate 1 2 "bogus" = Except.ok none ∧
    calculate 1 0 "divide" = Except.error CalcErr.zeroDivision := ⟨rfl, rfl⟩

/-- Claim C9 (amended): calculate raises ZeroDivisionError exactly when
the operation is divide and the second operand is zero; an operation
outside the four enum values returns None without raising; and every
enum operation with a non-zero divisor when dividing returns a numeric
result. -/
theorem calculate_error_characterization :
    (∀ (a b : ℚ) (op : String),
      calculate a b op = Except.error CalcErr.zeroDivision ↔ (op = "divide" ∧ b = 0)) ∧
    (∀ (a b : ℚ) (op : String), op ∉ operationValues → calculate a b op = Except.ok none) ∧
    (∀ (a b : ℚ) (op : Operation), (op = Operation.divide → b ≠ 0) →
      ∃ v : ℚ, calculate a b op.value = Except.ok (some v)) := by
  refine ⟨?_, ?_, ?_⟩
  · intro a b op
    unfold calculate
    by_cases h1 : op = "add"
    · subst h1; simp
    rw [if_neg h1]
    by_cases h2 : op = "subtract"
    · subst h2; simp
    rw [if_neg h2]
    by_cases h3 : op = "multiply"
    · subst h3; simp
    rw [if_neg h3]
    by_cases h4 : op = "divide"
    · subst h4
      rw [if_pos rfl]
      by_cases hb : b = 0
      · rw [if_pos hb]; simp [hb]
      · rw [if_neg hb]; simp [hb]
    · rw [if_neg h4]; simp [h4]
  · intro a b op hop
    unfold calculate
    rw [if_neg (fun he => hop (by rw [he]; simp [operationValues])),
      if_neg (fun he => hop (by rw [he]; simp [operationValues])),
      if_neg (fun he => hop (by rw [he]; simp [operationValues])),
      if_neg (fun he => hop (by rw [he]; simp [operationValues]))]
  · intro a b op hop
    cases op with
    | add => exact ⟨a + b, rfl⟩
    | subtract => exact ⟨a - b, rfl⟩
    | multiply => exact ⟨a * b, rfl⟩
    | divide =>
        refine ⟨a / b, ?_⟩
        show calculate a b "divide" = _
        unfold calculate
        rw [if_neg (by decide), if_neg (by decide), if_neg (by decide), if_pos rfl,
          if_neg (hop rfl)]

/-- Claim C9 witness: the amended theorem applied to an operation
outside the enum and to a well-formed division. -/
theorem calculate_error_characterization_witness :
    calculate 1 2 "pow" = Except.ok none ∧
    (calculate 6 3 "divide" = Except.error CalcErr.zeroDivision ↔
      ("divide" = "divide" ∧ (3 : ℚ) = 0)) :=
  ⟨calculate_error_characterization.2.1 1 2 "pow" (by decide),
   calculate_error_characterization.1 6 3 "divide"⟩

/-- Claim C10: when the persisted current_step equals 1 the rerun
replaces the loaded progress by a fresh state (discarding the stored
project name), clears the store, and never invokes the resume prompt;
the resume prompt is invoked exactly when the loaded current_step
exceeds 1. -/
theorem fresh_restart_at_step_one :
    (∀ (p : SetupProgressT) (a : Bool), p.current_step = 1 →
      startResume (some p) a = (freshProgress, true, false)) ∧
    (∀ (loaded : Option SetupProgressT) (a : Bool),
      (startResume loaded a).2.2 = true ↔ 1 < (loaded.getD freshProgress).current_step) := by
  constructor
  · intro p a h
    unfold startResume
    rw [Option.getD_some, if_neg (by rw [h]; exact lt_irrefl 1)]
  · intro loaded a
    unfold startResume
    by_cases h : 1 < (loaded.getD freshProgress).current_step
    · rw [if_pos h]
      cases a <;> simp [h]
    · rw [if_neg h]
      simp [h]

/-- Claim C10 witness: a persisted state at step 1 with a chosen project
name is replaced by the fresh state with the store cleared and no
resume offer. -/
theorem fresh_restart_at_step_one_witness :
    startResume (some progressStep1) true = (freshProgress, true, false) :=
  fresh_restart_at_step_one.1 progressStep1 true rfl
